import Mathlib

/-!
Verification development for the s3rpc repository (package `s3rpc`):
a request/response RPC mechanism built on an S3 bucket (payload transfer)
and SQS queues (notification).  The Go source in `client.go` and
`common.go` is shallowly embedded below: strings are `List Char`,
the Go standard-library helpers used by the key scheme
(`strings.Split`, `path.Base` / `filepath.Base` on a slash-separated
path, `strings.Contains`) are translated directly, and the effectful
loops (`Client.ExecuteFilename`, `Server.ListenAndServe`) become pure
step functions parameterised by an environment recording the outcome of
each external S3/SQS call, returning the trace of queue/object actions
they perform together with the loop-control result.
-/

namespace S3Rpc

/-- Strings are modelled as lists of characters. -/
abbrev Str := List Char

/-- Constant `toServer = "to_server"` from common.go. -/
def toServer : Str := "to_server".data

/-- Constant `toClient = "to_client"` from common.go. -/
def toClient : Str := "to_client".data

/-- Go `strings.Split(s, sep)` for a single-character separator:
splits around each occurrence of `sep`; `Split("", sep) = [""]`. -/
def splitSep (sep : Char) : Str → List Str
  | [] => [[]]
  | c :: cs =>
    if c = sep then [] :: splitSep sep cs
    else
      match splitSep sep cs with
      | [] => [[c]]
      | s :: ss => (c :: s) :: ss

/-- Go `path.Base`, step 1: strip trailing separators. -/
def dropTrailingSep (l : Str) : Str :=
  (l.reverse.dropWhile (fun c => c = '/')).reverse

/-- Go `path.Base`, step 2: the suffix after the last separator
(`path[strings.LastIndex(path, "/")+1:]`, the whole string when there
is no separator). -/
def afterLastSep (l : Str) : Str :=
  (l.reverse.takeWhile (fun c => c ≠ '/')).reverse

/-- Go `path.Base` (and `filepath.Base` on a slash-separated path):
`Base("") = "."`; otherwise strip trailing slashes, keep the last
element, and return `"/"` when the input consisted only of slashes. -/
def goPathBase (p : Str) : Str :=
  if p = [] then ['.']
  else
    let p2 := afterLastSep (dropTrailingSep p)
    if p2 = [] then ['/'] else p2

/-- Whether `sub` is a prefix of `s` (helper for `goContains`). -/
def isPrefixB : Str → Str → Bool
  | [], _ => true
  | _ :: _, [] => false
  | a :: as, b :: bs => a = b && isPrefixB as bs

/-- Go `strings.Contains(s, sub)`: `sub` occurs as a contiguous
substring of `s`. -/
def goContains (s sub : Str) : Bool :=
  match s with
  | [] => isPrefixB sub []
  | c :: t => isPrefixB sub (c :: t) || goContains t sub

/-- `message` from common.go: the distilled form of one SQS
notification (`Bucket`, `Key`, `ReceiptHandle`). -/
structure Message where
  bucket : Str
  key : Str
  receiptHandle : Str
deriving DecidableEq

/-- `Output` from common.go: the result of a handler invocation / of a
client call (`Filename`, `Metadata`). -/
structure Output where
  filename : Str
  metadata : List (Str × Str)
deriving DecidableEq

/-- Go `%q` rendering of an identifier as used by
`fmt.Errorf("expected bucket %q, got %q", ...)`: the string wrapped in
double quotes (identifiers here contain no characters Go would escape). -/
def goQuote (s : Str) : Str := '"' :: (s ++ ['"'])

/-- The error produced on a container mismatch, in both loops:
`fmt.Errorf("expected bucket %q, got %q", c.bucket, m.Bucket)`. -/
def bucketMismatchErr (expected actual : Str) : Str :=
  "expected bucket ".data ++ goQuote expected ++ ", got ".data ++ goQuote actual

/-- The client's request key from client.go line 73:
`fmt.Sprintf("%s/%s/%s_%s", toServer, op, id, filepath.Base(filename))`. -/
def clientRequestKey (op id filename : Str) : Str :=
  toServer ++ '/' :: op ++ '/' :: id ++ '_' :: goPathBase filename

/-- The server's operation extraction from common.go line 333:
`strings.Split(m.Key, "/")[1]`.  Indexing is partial (a Go panic when
the split has fewer than two elements), hence `Option`. -/
def serverOp (key : Str) : Option Str :=
  (splitSep '/' key).get? 1

/-- The server's response key from common.go line 371:
`toClient + "/" + op + "/" + baseKey` where `op = Split(key,"/")[1]`
and `baseKey = path.Base(key)`; `none` when extracting `op` panics. -/
def serverResponseKey (key : Str) : Option Str :=
  match serverOp key with
  | none => none
  | some op => some (toClient ++ '/' :: op ++ '/' :: goPathBase key)

/-- Queue/object actions a client call performs on one received
message, in order. -/
inductive CAction where
  | release (h : Str)
  | deleteMsg (h : Str)
  | download (k : Str)
  | deleteObj (k : Str)
deriving DecidableEq

/-- Loop control after the client examines one message: abort the poll
goroutine with an error, keep polling after a release, or return the
downloaded output. -/
inductive CResult where
  | abort (e : Str)
  | released
  | done (out : Output)
deriving DecidableEq

instance {ε α : Type _} [DecidableEq ε] [DecidableEq α] :
    DecidableEq (Except ε α) := fun a b =>
  match a, b with
  | .error e, .error f =>
    match decEq e f with
    | isTrue h => isTrue (h ▸ rfl)
    | isFalse h => isFalse fun c => h (Except.error.inj c)
  | .error _, .ok _ => isFalse fun c => Except.noConfusion c
  | .ok _, .error _ => isFalse fun c => Except.noConfusion c
  | .ok x, .ok y =>
    match decEq x y with
    | isTrue h => isTrue (h ▸ rfl)
    | isFalse h => isFalse fun c => h (Except.ok.inj c)

/-- Outcomes of the external calls one client message-processing step
may make: `deleteMessage`, `releaseMessage` (ChangeMessageVisibility to
0), `os.CreateTemp` (providing the random part of the temp name), and
`getObject` (providing the object metadata). -/
structure ClientEnv where
  deleteMsgResult : Except Str Unit
  releaseResult : Except Str Unit
  tempRandResult : Except Str Str
  getObjectResult : Except Str (List (Str × Str))
deriving DecidableEq

/-- One iteration of the client's per-message loop body
(client.go lines 98-139): abort on bucket mismatch; if the key does not
contain the correlation id, release and keep polling; otherwise delete
the message, create a scratch file, download the object, and
best-effort delete both objects (errors there are ignored).  Returns
the action trace and the loop control. -/
def clientProcessMessage (env : ClientEnv) (bucket id reqKey : Str)
    (m : Message) : List CAction × CResult :=
  if m.bucket ≠ bucket then
    ([], .abort (bucketMismatchErr bucket m.bucket))
  else if goContains m.key id = false then
    match env.releaseResult with
    | .error e => ([.release m.receiptHandle], .abort e)
    | .ok _ => ([.release m.receiptHandle], .released)
  else
    match env.deleteMsgResult with
    | .error e => ([.deleteMsg m.receiptHandle], .abort e)
    | .ok _ =>
      match env.tempRandResult with
      | .error e => ([.deleteMsg m.receiptHandle], .abort ("tempfile: ".data ++ e))
      | .ok rand =>
        match env.getObjectResult with
        | .error e => ([.deleteMsg m.receiptHandle, .download m.key], .abort e)
        | .ok md =>
          ([.deleteMsg m.receiptHandle, .download m.key,
            .deleteObj m.key, .deleteObj reqKey],
           .done ⟨rand ++ '_' :: goPathBase m.key, md⟩)

/-- Folding the client loop body over one received batch
(`for _, m := range ms`): the first non-release decision wins. -/
def clientProcessBatch (env : ClientEnv) (bucket id reqKey : Str) :
    List Message → CResult
  | [] => .released
  | m :: ms =>
    match clientProcessMessage env bucket id reqKey m with
    | (_, .released) => clientProcessBatch env bucket id reqKey ms
    | (_, r) => r

/-- The client's poll loop (client.go lines 87-148) with the timeout
made explicit: `n` is the number of receive cycles left before the
call's deadline; `recv t` is the result of the `Receive` call on cycle
`t` (an error models an SQS failure, including the context expiring
mid-receive).  When the deadline is observed at the top of the loop
(`case <-ctx.Done()`), the goroutine returns `nil`, `g.Wait()` returns
`nil`, and `ExecuteFilename` returns the never-assigned zero `Output`
with a nil error — modelled by `Except.ok ⟨[], []⟩`. -/
def clientLoop (recv : Nat → Except Str (List Message)) (env : ClientEnv)
    (bucket id reqKey : Str) : Nat → Nat → Except Str Output
  | _, 0 => .ok ⟨[], []⟩
  | t, n + 1 =>
    match recv t with
    | .error e => .error ("apply: ".data ++ e)
    | .ok ms =>
      match clientProcessBatch env bucket id reqKey ms with
      | .abort e => .error ("apply: ".data ++ e)
      | .done out => .ok out
      | .released => clientLoop recv env bucket id reqKey (t + 1) n

/-- `Client.ExecuteFilename` (client.go lines 71-149): build the
request key from the operation, a fresh correlation id and
`filepath.Base(filename)`, upload the file, then poll until a matching
response arrives or the timeout elapses. -/
def executeFilename (recv : Nat → Except Str (List Message)) (env : ClientEnv)
    (uploadResult : Except Str Unit) (bucket op id filename : Str)
    (deadline : Nat) : Except Str Output :=
  let key := clientRequestKey op id filename
  match uploadResult with
  | .error e => .error ("apply: upload: ".data ++ e)
  | .ok _ => clientLoop recv env bucket id key 0 deadline

/-- Queue/object actions the server performs on one received message,
in order. -/
inductive SAction where
  | release (h : Str)
  | deleteMsg (h : Str)
  | download (k : Str)
  | invoke (op : Str)
  | upload (k : Str)
deriving DecidableEq

/-- Loop control after the server processes one message: continue with
the next message, abort `ListenAndServe` with an error, or hit the Go
runtime panic from indexing `Split(key, "/")[1]` out of bounds. -/
inductive SResult where
  | next
  | abort (e : Str)
  | crash
deriving DecidableEq

/-- Outcomes of the external calls one server message-processing step
may make: `releaseMessage`, `deleteMessage`, `os.CreateTemp`,
`getObject` (metadata), the registered handler (an `Output`), and
`upload`. -/
structure ServerEnv where
  releaseResult : Except Str Unit
  deleteResult : Except Str Unit
  tempRandResult : Except Str Str
  getObjectResult : Except Str (List (Str × Str))
  handleResult : Except Str Output
  uploadResult : Except Str Unit
deriving DecidableEq

/-- One iteration of the server's per-message loop body
(common.go lines 326-383): abort on bucket mismatch; extract the
operation with `strings.Split(m.Key, "/")[1]` (a panic when the key has
no `/`); release and continue when no handler is registered; otherwise
delete the message first (the commit point), create a scratch file,
download the request, invoke the handler, and upload its output under
`to_client/{op}/{path.Base(m.Key)}`.  `handlers` is the list of
registered operation names; the handler's own result comes from `env`. -/
def serverHandleMessage (env : ServerEnv) (handlers : List Str)
    (bucket : Str) (m : Message) : List SAction × SResult :=
  if m.bucket ≠ bucket then
    ([], .abort (bucketMismatchErr bucket m.bucket))
  else
    match serverOp m.key with
    | none => ([], .crash)
    | some op =>
      if handlers.contains op = false then
        match env.releaseResult with
        | .error e => ([.release m.receiptHandle], .abort e)
        | .ok _ => ([.release m.receiptHandle], .next)
      else
        match env.deleteResult with
        | .error e => ([.deleteMsg m.receiptHandle], .abort e)
        | .ok _ =>
          match env.tempRandResult with
          | .error e => ([.deleteMsg m.receiptHandle], .abort ("tempfile: ".data ++ e))
          | .ok _ =>
            match env.getObjectResult with
            | .error e => ([.deleteMsg m.receiptHandle, .download m.key], .abort e)
            | .ok _ =>
              match env.handleResult with
              | .error e =>
                ([.deleteMsg m.receiptHandle, .download m.key, .invoke op],
                 .abort ("handle: ".data ++ e))
              | .ok _ =>
                match env.uploadResult with
                | .error e =>
                  ([.deleteMsg m.receiptHandle, .download m.key, .invoke op,
                    .upload (toClient ++ '/' :: op ++ '/' :: goPathBase m.key)],
                   .abort e)
                | .ok _ =>
                  ([.deleteMsg m.receiptHandle, .download m.key, .invoke op,
                    .upload (toClient ++ '/' :: op ++ '/' :: goPathBase m.key)],
                   .next)

/-- The server's `for _, m := range ms` over one received batch:
actions accumulate in order and the first non-`next` control decides. -/
def serverProcessBatch (env : ServerEnv) (handlers : List Str)
    (bucket : Str) : List Message → List SAction × SResult
  | [] => ([], .next)
  | m :: ms =>
    match serverHandleMessage env handlers bucket m with
    | (tr, .next) =>
      match serverProcessBatch env handlers bucket ms with
      | (tr2, r) => (tr ++ tr2, r)
    | (tr, r) => (tr, r)

/-- State shared by the close models: whether the `sync.Once` guard has
fired, whether the scratch directory still exists, and how many times
`os.RemoveAll` has been invoked. -/
structure CloseState where
  onceDone : Bool
  dirPresent : Bool
  removeCalls : Nat
deriving DecidableEq

/-- Go `os.RemoveAll(tempDir)`: removes the directory when present and
returns nil either way (removing a non-existent path is not an error). -/
def removeAll (s : CloseState) : CloseState × Except Str Unit :=
  ({ s with dirPresent := false, removeCalls := s.removeCalls + 1 }, .ok ())

/-- `Server.Close` (common.go lines 298-305): `closeOnce.Do` runs the
quit-channel close and `os.RemoveAll` at most once; on later calls `err`
keeps its zero value nil. -/
def serverClose (s : CloseState) : CloseState × Except Str Unit :=
  if s.onceDone then (s, .ok ())
  else removeAll { s with onceDone := true }

/-- `Client.Close` (client.go lines 153-155): plain
`return os.RemoveAll(c.tempDir)`, with no once-guard. -/
def clientClose (s : CloseState) : CloseState × Except Str Unit :=
  removeAll s

/-- `ClientOptions` / `ServerOptions` fields that `init` examines;
the two `init` methods check the same fields. -/
structure GoOptions where
  region : Str
  bucket : Str
  accessKeyID : Str
  secretAccessKey : Str
  queue : Str
deriving DecidableEq

/-- Constant `defaultRegion = "eu-north-1"` from common.go. -/
def defaultRegion : Str := "eu-north-1".data

/-- `ClientOptions.init` (client.go lines 171-189): default the region,
then require access key id, secret access key and queue.  The bucket is
never examined. -/
def clientOptionsInit (o : GoOptions) : Except Str GoOptions :=
  let o' := if o.region = [] then { o with region := defaultRegion } else o
  if o'.accessKeyID = [] then .error "access key id is required".data
  else if o'.secretAccessKey = [] then .error "secret access key is required".data
  else if o'.queue = [] then .error "queue is required".data
  else .ok o'

/-- `ServerOptions.init` (common.go lines 414-432): identical checks to
`ClientOptions.init`. -/
def serverOptionsInit (o : GoOptions) : Except Str GoOptions :=
  let o' := if o.region = [] then { o with region := defaultRegion } else o
  if o'.accessKeyID = [] then .error "access key id is required".data
  else if o'.secretAccessKey = [] then .error "secret access key is required".data
  else if o'.queue = [] then .error "queue is required".data
  else .ok o'

theorem splitSep_ne_nil (sep : Char) (l : Str) : splitSep sep l ≠ [] := by
  cases l with
  | nil => simp [splitSep]
  | cons c cs =>
    by_cases h : c = sep
    · simp [splitSep, h]
    · simp only [splitSep, if_neg h]
      cases splitSep sep cs <;> simp

theorem splitSep_of_not_mem (sep : Char) (l : Str) (h : sep ∉ l) :
    splitSep sep l = [l] := by
  induction l with
  | nil => rfl
  | cons c cs ih =>
    have hc : ¬ c = sep := by
      intro h'
      exact h (h' ▸ List.mem_cons_self c cs)
    have hcs : sep ∉ cs := fun hm => h (List.mem_cons_of_mem c hm)
    simp [splitSep, if_neg hc, ih hcs]

theorem splitSep_append (sep : Char) (l rest : Str) (h : sep ∉ l) :
    splitSep sep (l ++ sep :: rest) = l :: splitSep sep rest := by
  induction l with
  | nil => simp [splitSep]
  | cons c cs ih =>
    have hc : ¬ c = sep := by
      intro h'
      exact h (h' ▸ List.mem_cons_self c cs)
    have hcs : sep ∉ cs := fun hm => h (List.mem_cons_of_mem c hm)
    simp only [List.cons_append, splitSep, if_neg hc, List.append_eq, ih hcs]

theorem splitSep_length (sep : Char) (l : Str) :
    (splitSep sep l).length = l.count sep + 1 := by
  induction l with
  | nil => simp [splitSep]
  | cons c cs ih =>
    by_cases h : c = sep
    · simp [splitSep, h, List.count_cons, ih]
    · simp only [splitSep, if_neg h]
      rcases he : splitSep sep cs with _ | ⟨s, ss⟩
      · exact absurd he (splitSep_ne_nil sep cs)
      · rw [he] at ih
        simp only [List.length_cons] at ih
        have hns : (c == sep) = false := by simp [h]
        simp [List.count_cons, hns, ← ih]

theorem isPrefixB_self_append (l r : Str) : isPrefixB l (l ++ r) = true := by
  induction l with
  | nil => rfl
  | cons a as ih => simp [isPrefixB, ih]

theorem goContains_of_isPrefixB (s sub : Str) (h : isPrefixB sub s = true) :
    goContains s sub = true := by
  cases s with
  | nil => simpa [goContains] using h
  | cons c t => simp [goContains, h]

theorem goContains_append (p sub s : Str) :
    goContains (p ++ (sub ++ s)) sub = true := by
  induction p with
  | nil => exact goContains_of_isPrefixB _ _ (isPrefixB_self_append sub s)
  | cons c t ih => simp [goContains, ih]

theorem takeWhile_append_eq (p : Char → Bool) (l : Str) (c : Char) (r : Str)
    (hl : ∀ x ∈ l, p x = true) (hc : p c = false) :
    (l ++ c :: r).takeWhile p = l := by
  induction l with
  | nil => simp [List.takeWhile, hc]
  | cons a as ih =>
    have ha := hl a (List.mem_cons_self a as)
    simp only [List.cons_append, List.takeWhile, ha, List.append_eq]
    rw [ih (fun x hx => hl x (List.mem_cons_of_mem a hx))]

theorem goPathBase_append (pre b : Str) (hb : b ≠ []) (hsl : '/' ∉ b) :
    goPathBase (pre ++ '/' :: b) = b := by
  have hne : pre ++ '/' :: b ≠ [] := by simp
  rcases hbr : b.reverse with _ | ⟨x, xs⟩
  · exact absurd (List.reverse_eq_nil_iff.mp hbr) hb
  have hrev : (pre ++ '/' :: b).reverse = x :: (xs ++ '/' :: pre.reverse) := by
    simp [List.reverse_append, hbr]
  have hx : x ∈ b := by
    have : x ∈ b.reverse := by rw [hbr]; exact List.mem_cons_self x xs
    exact List.mem_reverse.mp this
  have hxs : (fun c => decide (c = '/')) x = false := by
    simp
    intro h'
    exact hsl (h' ▸ hx)
  have hdrop : dropTrailingSep (pre ++ '/' :: b) = pre ++ '/' :: b := by
    unfold dropTrailingSep
    rw [hrev, List.dropWhile_cons_of_neg (by simpa using hxs), ← hrev,
      List.reverse_reverse]
  have htake : afterLastSep (pre ++ '/' :: b) = b := by
    unfold afterLastSep
    have hall : ∀ y ∈ b.reverse, (fun c => decide (c ≠ '/')) y = true := by
      intro y hy
      have : y ∈ b := List.mem_reverse.mp hy
      simp
      intro h'
      exact hsl (h' ▸ this)
    have hsep : (fun c => decide (c ≠ '/')) '/' = false := by simp
    have : (pre ++ '/' :: b).reverse = b.reverse ++ '/' :: pre.reverse := by
      simp [List.reverse_append]
    rw [this, takeWhile_append_eq _ _ _ _ hall hsep, List.reverse_reverse]
  unfold goPathBase
  rw [if_neg hne]
  simp only [hdrop, htake]
  rw [if_neg hb]

theorem takeWhile_all (p : Char → Bool) (l : Str) (hl : ∀ x ∈ l, p x = true) :
    l.takeWhile p = l := by
  induction l with
  | nil => rfl
  | cons a as ih =>
    have ha := hl a (List.mem_cons_self a as)
    simp only [List.takeWhile, ha]
    rw [ih fun x hx => hl x (List.mem_cons_of_mem a hx)]

theorem goPathBase_no_sep (b : Str) (hb : b ≠ []) (hsl : '/' ∉ b) :
    goPathBase b = b := by
  rcases hbr : b.reverse with _ | ⟨x, xs⟩
  · exact absurd (List.reverse_eq_nil_iff.mp hbr) hb
  have hx : x ∈ b := List.mem_reverse.mp (hbr ▸ List.mem_cons_self x xs)
  have hdrop : dropTrailingSep b = b := by
    unfold dropTrailingSep
    rw [hbr, List.dropWhile_cons_of_neg, ← hbr, List.reverse_reverse]
    simp
    intro h'
    exact hsl (h' ▸ hx)
  have htake : afterLastSep b = b := by
    unfold afterLastSep
    rw [takeWhile_all _ _ (fun y hy => by
        simp
        intro h'
        exact hsl (h' ▸ List.mem_reverse.mp hy)),
      List.reverse_reverse]
  unfold goPathBase
  rw [if_neg hb]
  simp only [hdrop, htake]
  rw [if_neg hb]

theorem splitSep_request_key (op id b : Str)
    (hop : '/' ∉ op) (hid : '/' ∉ id) (hb : '/' ∉ b) :
    splitSep '/' (toServer ++ '/' :: op ++ '/' :: id ++ '_' :: b)
      = [toServer, op, id ++ '_' :: b] := by
  have hts : '/' ∉ toServer := by decide
  have hbb : '/' ∉ id ++ '_' :: b := by
    intro hm
    rcases List.mem_append.mp hm with h1 | h2
    · exact hid h1
    · rcases List.mem_cons.mp h2 with h3 | h4
      · exact absurd h3 (by decide)
      · exact hb h4
  have e1 : toServer ++ '/' :: op ++ '/' :: id ++ '_' :: b
      = toServer ++ '/' :: (op ++ '/' :: (id ++ '_' :: b)) := by simp
  rw [e1, splitSep_append _ _ _ hts, splitSep_append _ _ _ hop,
    splitSep_of_not_mem _ _ hbb]

/-- C3: every request key `to_server/{op}/{id}_{basename}` (each segment
free of the separator) is answered under the response key
`to_client/{op}/{id}_{basename}`: the server extracts the operation from
segment 1, reuses `path.Base` of the request key, and the response key's
basename is byte-identical to the request key's basename. -/
theorem response_key_preserves_basename (op id b : Str)
    (hop : '/' ∉ op) (hid : '/' ∉ id) (hb : '/' ∉ b) :
    serverResponseKey (toServer ++ '/' :: op ++ '/' :: id ++ '_' :: b)
      = some (toClient ++ '/' :: op ++ '/' :: id ++ '_' :: b) ∧
    goPathBase (toClient ++ '/' :: op ++ '/' :: id ++ '_' :: b)
      = goPathBase (toServer ++ '/' :: op ++ '/' :: id ++ '_' :: b) := by
  have hbb_ne : id ++ '_' :: b ≠ [] := by simp
  have hbb : '/' ∉ id ++ '_' :: b := by
    intro hm
    rcases List.mem_append.mp hm with h1 | h2
    · exact hid h1
    · rcases List.mem_cons.mp h2 with h3 | h4
      · exact absurd h3 (by decide)
      · exact hb h4
  have hsplit := splitSep_request_key op id b hop hid hb
  have e2 : toServer ++ '/' :: op ++ '/' :: id ++ '_' :: b
      = (toServer ++ '/' :: op) ++ '/' :: (id ++ '_' :: b) := by simp
  have hreq : goPathBase (toServer ++ '/' :: op ++ '/' :: id ++ '_' :: b)
      = id ++ '_' :: b := by
    rw [e2, goPathBase_append _ _ hbb_ne hbb]
  have e3 : toClient ++ '/' :: op ++ '/' :: id ++ '_' :: b
      = (toClient ++ '/' :: op) ++ '/' :: (id ++ '_' :: b) := by simp
  have hresp : goPathBase (toClient ++ '/' :: op ++ '/' :: id ++ '_' :: b)
      = id ++ '_' :: b := by
    rw [e3, goPathBase_append _ _ hbb_ne hbb]
  constructor
  · unfold serverResponseKey serverOp
    rw [hsplit]
    simp [hreq]
    rw [show toServer ++ '/' :: (op ++ '/' :: (id ++ '_' :: b))
        = (toServer ++ '/' :: op) ++ '/' :: (id ++ '_' :: b) by simp,
      goPathBase_append _ _ hbb_ne hbb]
  · rw [hreq, hresp]

/-- Witness for `response_key_preserves_basename` at
op = "op", id = "id", basename = "f.txt". -/
theorem response_key_preserves_basename_witness :
    serverResponseKey (toServer ++ '/' :: "op".data ++ '/' :: "id".data ++ '_' :: "f.txt".data)
      = some (toClient ++ '/' :: "op".data ++ '/' :: "id".data ++ '_' :: "f.txt".data) ∧
    goPathBase (toClient ++ '/' :: "op".data ++ '/' :: "id".data ++ '_' :: "f.txt".data)
      = goPathBase (toServer ++ '/' :: "op".data ++ '/' :: "id".data ++ '_' :: "f.txt".data) :=
  response_key_preserves_basename "op".data "id".data "f.txt".data
    (by decide) (by decide) (by decide)

/-- C10: the server's operation extraction
`strings.Split(m.Key, "/")[1]` is partial: on a received message whose
key contains no `/` the index is out of bounds (a runtime panic,
`SResult.crash`); the extraction yields an operation exactly when the
key has at least two path segments, i.e. contains a `/`. -/
theorem server_op_extraction_is_partial :
    (∀ (env : ServerEnv) (handlers : List Str) (bucket : Str) (m : Message),
      m.bucket = bucket → '/' ∉ m.key →
      serverHandleMessage env handlers bucket m = ([], .crash)) ∧
    (∀ k : Str, (serverOp k).isSome = true ↔ '/' ∈ k) := by
  constructor
  · intro env handlers bucket m hb hk
    unfold serverHandleMessage
    rw [if_neg (by simp [hb])]
    unfold serverOp
    rw [splitSep_of_not_mem _ _ hk]
    rfl
  · intro k
    unfold serverOp
    constructor
    · intro hs
      by_contra hk
      rw [splitSep_of_not_mem _ _ hk] at hs
      simp at hs
    · intro hk
      have hcount : 0 < k.count '/' := List.count_pos_iff.mpr hk
      have hlen : 1 < (splitSep '/' k).length := by
        rw [splitSep_length]
        omega
      rcases he : (splitSep '/' k).get? 1 with _ | s
      · rw [List.get?_eq_none] at he
        omega
      · simp

/-- Witness for `server_op_extraction_is_partial`: the key "nokey" has
no separator, so dispatch crashes on it. -/
theorem server_op_extraction_is_partial_witness :
    serverHandleMessage ⟨.ok (), .ok (), .ok "t".data, .ok [], .ok ⟨"o".data, []⟩, .ok ()⟩
      ["op".data] "b".data ⟨"b".data, "nokey".data, "r".data⟩ = ([], .crash) :=
  server_op_extraction_is_partial.1 _ _ _ _ rfl (by decide)

/-- C4: a message whose key's operation segment has no registered
handler is released (lease reset to zero) and never deleted, and the
batch loop continues with the remaining messages. -/
theorem unregistered_op_released_not_deleted
    (env : ServerEnv) (handlers : List Str) (bucket : Str) (m : Message)
    (ms : List Message) (op : Str)
    (hb : m.bucket = bucket) (hop : serverOp m.key = some op)
    (hh : handlers.contains op = false)
    (hrel : env.releaseResult = .ok ()) :
    serverHandleMessage env handlers bucket m = ([.release m.receiptHandle], .next) ∧
    (∀ h, SAction.deleteMsg h ∉ (serverHandleMessage env handlers bucket m).1) ∧
    serverProcessBatch env handlers bucket (m :: ms)
      = (SAction.release m.receiptHandle :: (serverProcessBatch env handlers bucket ms).1,
         (serverProcessBatch env handlers bucket ms).2) := by
  have h1 : serverHandleMessage env handlers bucket m
      = ([.release m.receiptHandle], .next) := by
    have hnot : op ∉ handlers := by simpa using hh
    unfold serverHandleMessage
    rw [if_neg (by simp [hb]), hop]
    simp [hnot, hrel]
  refine ⟨h1, ?_, ?_⟩
  · rw [h1]
    simp
  · rcases hbat : serverProcessBatch env handlers bucket ms with ⟨tr2, r⟩
    simp [serverProcessBatch, h1, hbat]

/-- Witness for `unregistered_op_released_not_deleted`: a message for
operation "other" with only "op" registered is released. -/
theorem unregistered_op_released_not_deleted_witness :
    serverHandleMessage ⟨.ok (), .ok (), .ok "t".data, .ok [], .ok ⟨"o".data, []⟩, .ok ()⟩
      ["op".data] "b".data ⟨"b".data, "to_server/other/id_f".data, "r".data⟩
      = ([.release "r".data], .next) :=
  (unregistered_op_released_not_deleted
    ⟨.ok (), .ok (), .ok "t".data, .ok [], .ok ⟨"o".data, []⟩, .ok ()⟩
    ["op".data] "b".data ⟨"b".data, "to_server/other/id_f".data, "r".data⟩
    [] "other".data rfl (by decide) (by decide) rfl).1

/-- C5: in both the server loop and a client call, a received message
whose bucket differs from the configured one aborts the loop, and the
error text contains both the expected and the actual identifier. -/
theorem bucket_mismatch_aborts_naming_both
    (cenv : ClientEnv) (senv : ServerEnv) (handlers : List Str)
    (bucket id reqKey : Str) (m : Message) (hm : m.bucket ≠ bucket) :
    serverHandleMessage senv handlers bucket m
      = ([], .abort (bucketMismatchErr bucket m.bucket)) ∧
    clientProcessMessage cenv bucket id reqKey m
      = ([], .abort (bucketMismatchErr bucket m.bucket)) ∧
    goContains (bucketMismatchErr bucket m.bucket) bucket = true ∧
    goContains (bucketMismatchErr bucket m.bucket) m.bucket = true := by
  refine ⟨?_, ?_, ?_, ?_⟩
  · unfold serverHandleMessage
    rw [if_pos hm]
  · unfold clientProcessMessage
    rw [if_pos hm]
  · have he : bucketMismatchErr bucket m.bucket
        = ("expected bucket ".data ++ ['"'])
          ++ (bucket ++ ('"' :: (", got ".data ++ goQuote m.bucket))) := by
      simp [bucketMismatchErr, goQuote]
    rw [he]
    exact goContains_append _ _ _
  · have he : bucketMismatchErr bucket m.bucket
        = ("expected bucket ".data ++ goQuote bucket ++ ", got ".data ++ ['"'])
          ++ (m.bucket ++ ['"']) := by
      simp [bucketMismatchErr, goQuote]
    rw [he]
    exact goContains_append _ _ _

/-- Witness for `bucket_mismatch_aborts_naming_both` with expected
bucket "b" and actual bucket "c". -/
theorem bucket_mismatch_aborts_naming_both_witness :
    serverHandleMessage ⟨.ok (), .ok (), .ok "t".data, .ok [], .ok ⟨"o".data, []⟩, .ok ()⟩
      ["op".data] "b".data ⟨"c".data, "to_server/op/id_f".data, "r".data⟩
      = ([], .abort (bucketMismatchErr "b".data "c".data)) ∧
    clientProcessMessage ⟨.ok (), .ok (), .ok "t".data, .ok []⟩
      "b".data "id".data "rq".data ⟨"c".data, "to_server/op/id_f".data, "r".data⟩
      = ([], .abort (bucketMismatchErr "b".data "c".data)) ∧
    goContains (bucketMismatchErr "b".data "c".data) "b".data = true ∧
    goContains (bucketMismatchErr "b".data "c".data) "c".data = true :=
  bucket_mismatch_aborts_naming_both _ _ _ _ _ _ _ (by decide)

/-- C6: when a handler is registered for a message's operation, the
queue message is deleted first: the delete is the head of the action
trace, so it strictly precedes the request download and the handler
invocation, and no further delete or release of the message follows. -/
theorem handler_dispatch_deletes_first
    (env : ServerEnv) (handlers : List Str) (bucket : Str) (m : Message)
    (op : Str) (hb : m.bucket = bucket) (hop : serverOp m.key = some op)
    (hh : handlers.contains op = true) :
    ∃ rest, (serverHandleMessage env handlers bucket m).1
        = SAction.deleteMsg m.receiptHandle :: rest ∧
      (∀ h, SAction.release h ∉ rest) ∧
      (∀ h, SAction.deleteMsg h ∉ rest) := by
  rcases env with ⟨rel, del, tmp, getr, han, upl⟩
  unfold serverHandleMessage
  rw [if_neg (by simp [hb]), hop]
  simp only [hh, Bool.true_eq_false, if_false]
  cases del <;> cases tmp <;> cases getr <;> cases han <;> cases upl <;>
    exact ⟨_, rfl, by simp, by simp⟩

/-- Witness for `handler_dispatch_deletes_first`: a fully successful
dispatch of operation "op". -/
theorem handler_dispatch_deletes_first_witness :
    ∃ rest, (serverHandleMessage
        ⟨.ok (), .ok (), .ok "t".data, .ok [], .ok ⟨"o".data, []⟩, .ok ()⟩
        ["op".data] "b".data ⟨"b".data, "to_server/op/id_f".data, "r".data⟩).1
        = SAction.deleteMsg "r".data :: rest ∧
      (∀ h, SAction.release h ∉ rest) ∧
      (∀ h, SAction.deleteMsg h ∉ rest) :=
  handler_dispatch_deletes_first _ _ _ _ "op".data rfl (by decide) (by decide)

/-- C2 (counterexample): the client filters with
`strings.Contains(m.Key, id)` on the whole key, not on the key's
basename.  For id = "x" and key = "x/y" the basename "y" does not
contain the id, yet the client does not release the message: it deletes
it and returns its payload. -/
theorem client_match_ignores_basename_boundary :
    goContains (goPathBase "x/y".data) "x".data = false ∧
    clientProcessMessage ⟨.ok (), .ok (), .ok "t".data, .ok []⟩
      "b".data "x".data "rq".data ⟨"b".data, "x/y".data, "r".data⟩
      = ([.deleteMsg "r".data, .download "x/y".data,
          .deleteObj "x/y".data, .deleteObj "rq".data],
         .done ⟨"t_y".data, []⟩) := by
  decide

/-- C2 (amended): a received message whose *key* (not merely its
basename) does not contain the call's correlation id is released — the
trace is exactly one release, with no delete — and polling continues;
and any message whose payload a call returns has the id somewhere in
its key. -/
theorem client_releases_nonmatching_key :
    (∀ (env : ClientEnv) (bucket id reqKey : Str) (m : Message),
      m.bucket = bucket → goContains m.key id = false →
      env.releaseResult = .ok () →
      clientProcessMessage env bucket id reqKey m
        = ([.release m.receiptHandle], .released)) ∧
    (∀ (env : ClientEnv) (bucket id reqKey : Str) (m : Message)
        (tr : List CAction) (out : Output),
      clientProcessMessage env bucket id reqKey m = (tr, .done out) →
      goContains m.key id = true) := by
  constructor
  · intro env bucket id reqKey m hb hni hrel
    unfold clientProcessMessage
    rw [if_neg (by simp [hb]), if_pos hni, hrel]
  · intro env bucket id reqKey m tr out h
    by_cases hc : goContains m.key id = true
    · exact hc
    · exfalso
      have hc' : goContains m.key id = false := by simpa using hc
      unfold clientProcessMessage at h
      by_cases hb : m.bucket ≠ bucket
      · rw [if_pos hb] at h
        exact CResult.noConfusion (congrArg Prod.snd h)
      · rw [if_neg hb, if_pos hc'] at h
        rcases hr : env.releaseResult with e | u <;> rw [hr] at h <;>
          exact CResult.noConfusion (congrArg Prod.snd h)

/-- Witness for `client_releases_nonmatching_key`: a message for a
different correlation id is released. -/
theorem client_releases_nonmatching_key_witness :
    clientProcessMessage ⟨.ok (), .ok (), .ok "t".data, .ok []⟩
      "b".data "cid".data "rq".data ⟨"b".data, "to_client/op/zz_f".data, "r".data⟩
      = ([.release "r".data], .released) :=
  client_releases_nonmatching_key.1
    ⟨.ok (), .ok (), .ok "t".data, .ok []⟩
    "b".data "cid".data "rq".data ⟨"b".data, "to_client/op/zz_f".data, "r".data⟩
    rfl (by decide) rfl

/-- C1: when the configured timeout elapses at the top of the client's
poll loop before any matching message arrived, `ExecuteFilename` does
NOT return an error: the goroutine returns nil on `ctx.Done()`, so the
call returns the never-assigned zero `Output` with a nil error.  Here
the queue forever delivers only a non-matching message (released each
cycle) and the deadline of 2 receive cycles expires. -/
theorem timeout_returns_nil_error_and_zero_output :
    executeFilename
      (fun _ => .ok [⟨"b".data, "to_client/op/zz_f".data, "r".data⟩])
      ⟨.ok (), .ok (), .ok "t".data, .ok []⟩ (.ok ())
      "b".data "op".data "cid".data "f.txt".data 2
      = .ok ⟨[], []⟩ := by
  decide

/-- C8 (counterexample): a client call whose filename contains the
separator is not rejected: `ExecuteFilename` takes
`filepath.Base(filename)`, builds the key, uploads, and here completes
successfully end-to-end with filename "a/b". -/
theorem separator_filename_not_rejected :
    clientRequestKey "op".data "id".data "a/b".data = "to_server/op/id_b".data ∧
    executeFilename
      (fun _ => .ok [⟨"b".data, "to_client/op/id_b".data, "r".data⟩])
      ⟨.ok (), .ok (), .ok "t".data, .ok []⟩ (.ok ())
      "b".data "op".data "id".data "a/b".data 3
      = .ok ⟨"t_id_b".data, []⟩ := by
  decide

/-- C8 (amended): filenames containing the separator are accepted; only
the final path element reaches the key, so the key still parses into
exactly the three intended segments and the server extracts the right
operation — the separator in the filename cannot corrupt key parsing. -/
theorem request_key_embeds_only_basename (op id pre b : Str)
    (hop : '/' ∉ op) (hid : '/' ∉ id) (hb : '/' ∉ b) (hbne : b ≠ []) :
    clientRequestKey op id (pre ++ '/' :: b) = clientRequestKey op id b ∧
    splitSep '/' (clientRequestKey op id (pre ++ '/' :: b))
      = [toServer, op, id ++ '_' :: b] ∧
    serverOp (clientRequestKey op id (pre ++ '/' :: b)) = some op := by
  have h1 : goPathBase (pre ++ '/' :: b) = b := goPathBase_append pre b hbne hb
  have h2 : goPathBase b = b := goPathBase_no_sep b hbne hb
  have hkey : clientRequestKey op id (pre ++ '/' :: b)
      = toServer ++ '/' :: op ++ '/' :: id ++ '_' :: b := by
    unfold clientRequestKey
    rw [h1]
  refine ⟨?_, ?_, ?_⟩
  · rw [hkey]
    unfold clientRequestKey
    rw [h2]
  · rw [hkey]
    exact splitSep_request_key op id b hop hid hb
  · unfold serverOp
    rw [hkey, splitSep_request_key op id b hop hid hb]
    rfl

/-- Witness for `request_key_embeds_only_basename` at filename
"dir/f.txt". -/
theorem request_key_embeds_only_basename_witness :
    clientRequestKey "op".data "id".data ("dir".data ++ '/' :: "f.txt".data)
      = clientRequestKey "op".data "id".data "f.txt".data ∧
    splitSep '/' (clientRequestKey "op".data "id".data ("dir".data ++ '/' :: "f.txt".data))
      = [toServer, "op".data, "id".data ++ '_' :: "f.txt".data] ∧
    serverOp (clientRequestKey "op".data "id".data ("dir".data ++ '/' :: "f.txt".data))
      = some "op".data :=
  request_key_embeds_only_basename "op".data "id".data "dir".data "f.txt".data
    (by decide) (by decide) (by decide) (by decide)

/-- C7 (counterexample): construction does not fail when the storage
container identifier (bucket) is absent: both `init` methods accept
options with an empty bucket as long as the keys and the queue are set. -/
theorem missing_bucket_accepted :
    clientOptionsInit ⟨[], [], "a".data, "s".data, "q".data⟩
      = .ok ⟨defaultRegion, [], "a".data, "s".data, "q".data⟩ ∧
    serverOptionsInit ⟨[], [], "a".data, "s".data, "q".data⟩
      = .ok ⟨defaultRegion, [], "a".data, "s".data, "q".data⟩ := by
  decide

/-- C7 (amended): `NewClient` and `NewServer` validation succeeds
exactly when the access key id, the secret access key and the queue id
are non-empty; the bucket is not among the validated fields. -/
theorem options_init_requires_keys_and_queue (o : GoOptions) :
    ((∃ o', clientOptionsInit o = .ok o') ↔
      (o.accessKeyID ≠ [] ∧ o.secretAccessKey ≠ [] ∧ o.queue ≠ [])) ∧
    ((∃ o', serverOptionsInit o = .ok o') ↔
      (o.accessKeyID ≠ [] ∧ o.secretAccessKey ≠ [] ∧ o.queue ≠ [])) := by
  unfold clientOptionsInit serverOptionsInit
  by_cases hr : o.region = [] <;> by_cases h1 : o.accessKeyID = [] <;>
    by_cases h2 : o.secretAccessKey = [] <;> by_cases h3 : o.queue = [] <;>
      simp [hr, h1, h2, h3]

/-- Witness for `options_init_requires_keys_and_queue` at options with
an empty bucket and every other field set. -/
theorem options_init_requires_keys_and_queue_witness :
    ((∃ o', clientOptionsInit ⟨"r".data, [], "a".data, "s".data, "q".data⟩ = .ok o') ↔
      ("a".data ≠ ([] : Str) ∧ "s".data ≠ ([] : Str) ∧ "q".data ≠ ([] : Str))) ∧
    ((∃ o', serverOptionsInit ⟨"r".data, [], "a".data, "s".data, "q".data⟩ = .ok o') ↔
      ("a".data ≠ ([] : Str) ∧ "s".data ≠ ([] : Str) ∧ "q".data ≠ ([] : Str))) :=
  options_init_requires_keys_and_queue ⟨"r".data, [], "a".data, "s".data, "q".data⟩

/-- C9 (counterexample): `Client.Close` is not once-guarded: two
sequential closes invoke `os.RemoveAll` twice, so the scratch-directory
cleanup does not execute exactly once. -/
theorem client_close_removes_each_time :
    ((clientClose (clientClose ⟨false, true, 0⟩).1).1).removeCalls = 2 := by
  decide

/-- C9 (amended): `Server.Close` is idempotent with a once-guard (both
calls return nil and the cleanup runs exactly once), while
`Client.Close` re-invokes `os.RemoveAll` on every call; since removing
an already-removed directory succeeds, both client calls still return
the same nil outcome and never panic. -/
theorem close_idempotent_amended (d : Bool) :
    ((serverClose (serverClose ⟨false, d, 0⟩).1).2 = .ok () ∧
     (serverClose ⟨false, d, 0⟩).2 = .ok () ∧
     ((serverClose (serverClose ⟨false, d, 0⟩).1).1).removeCalls = 1 ∧
     ((serverClose (serverClose ⟨false, d, 0⟩).1).1).dirPresent = false) ∧
    ((clientClose (clientClose ⟨false, d, 0⟩).1).2 = .ok () ∧
     (clientClose ⟨false, d, 0⟩).2 = .ok () ∧
     ((clientClose (clientClose ⟨false, d, 0⟩).1).1).removeCalls = 2 ∧
     ((clientClose (clientClose ⟨false, d, 0⟩).1).1).dirPresent = false) := by
  cases d <;> decide

/-- Witness for `close_idempotent_amended` with the directory initially
present. -/
theorem close_idempotent_amended_witness :
    ((serverClose (serverClose ⟨false, true, 0⟩).1).2 = .ok () ∧
     (serverClose ⟨false, true, 0⟩).2 = .ok () ∧
     ((serverClose (serverClose ⟨false, true, 0⟩).1).1).removeCalls = 1 ∧
     ((serverClose (serverClose ⟨false, true, 0⟩).1).1).dirPresent = false) ∧
    ((clientClose (clientClose ⟨false, true, 0⟩).1).2 = .ok () ∧
     (clientClose ⟨false, true, 0⟩).2 = .ok () ∧
     ((clientClose (clientClose ⟨false, true, 0⟩).1).1).removeCalls = 2 ∧
     ((clientClose (clientClose ⟨false, true, 0⟩).1).1).dirPresent = false) :=
  close_idempotent_amended true

end S3Rpc
